import Mathlib

/-!
# Verification of the expense-bot core (src/bot.py)

A shallow embedding of the pure core of the Telegram expense bot:
the free-text expense parser (`handle_expense`), the report
renderer with pagination (`show_period`) and the category listing
(`categories_list`).  Python numbers (`REAL` amounts, `float()` results)
are modelled as `Rat`; Python strings as Lean `String` over their
character lists.
-/

namespace ExpenseBot

/- Rational arithmetic is sealed in Batteries; reopen it so that concrete
runs of the embedded code reduce under `decide`. -/
attribute [local semireducible] Rat.mul Rat.add Rat.inv Rat.sub

/-! ## Python string primitives -/

/-- The whitespace characters recognised by Python's `str.split()` /
`str.strip()` (the ASCII whitespace subset relevant to chat input). -/
def pyIsSpace (c : Char) : Bool :=
  c == ' ' || c == '\t' || c == '\n' || c == '\r' || c == '\x0b' || c == '\x0c'

/-- Python `str.strip()`: drop leading and trailing whitespace. -/
def pyStrip (s : String) : String :=
  String.mk (((s.data.dropWhile pyIsSpace).reverse.dropWhile pyIsSpace).reverse)

/-- Helper for `pySplit`: `cur` is the current token, reversed. -/
def pySplitAux : List Char → List Char → List String
  | [], [] => []
  | [], cur => [String.mk cur.reverse]
  | c :: cs, cur =>
    if pyIsSpace c then
      match cur with
      | [] => pySplitAux cs []
      | _ => String.mk cur.reverse :: pySplitAux cs []
    else pySplitAux cs (c :: cur)

/-- Python `str.split()` with no argument: split on runs of whitespace,
returning only non-empty tokens. -/
def pySplit (s : String) : List String :=
  pySplitAux s.data []

/-- Python `str.lower()`, character-wise, on the alphabets the bot's users
use: ASCII `A`-`Z` and Cyrillic `А`-`Я`, `Ё`. -/
def pyCharLower (c : Char) : Char :=
  if 0x41 ≤ c.toNat ∧ c.toNat ≤ 0x5A then Char.ofNat (c.toNat + 0x20)
  else if 0x410 ≤ c.toNat ∧ c.toNat ≤ 0x42F then Char.ofNat (c.toNat + 0x20)
  else if c.toNat = 0x401 then Char.ofNat 0x451
  else c

/-- Python `str.lower()` as used on the category token. -/
def pyLower (s : String) : String :=
  String.mk (s.data.map pyCharLower)

/-- Python `str.upper()`, character-wise, inverse ranges of `pyCharLower`. -/
def pyCharUpper (c : Char) : Char :=
  if 0x61 ≤ c.toNat ∧ c.toNat ≤ 0x7A then Char.ofNat (c.toNat - 0x20)
  else if 0x430 ≤ c.toNat ∧ c.toNat ≤ 0x44F then Char.ofNat (c.toNat - 0x20)
  else if c.toNat = 0x451 then Char.ofNat 0x401
  else c

/-- Python `str.upper()` as used on the category heading of a report. -/
def pyUpper (s : String) : String :=
  String.mk (s.data.map pyCharUpper)

/-- `parts[i].replace(',', '.')` from `handle_expense`. -/
def replaceCommaDot (s : String) : String :=
  String.mk (s.data.map (fun c => if c = ',' then '.' else c))

/-! ## Python `float()` on strings, modelled over `Rat`

The modelled subset of CPython's `float(str)`: an optional sign, a decimal
mantissa (`digits`, `digits.digits`, `digits.`, `.digits`) and an optional
exponent `e`/`E` with optional sign.  Not modelled: `inf`/`nan`, underscores
between digits, non-ASCII digits, and surrounding whitespace (the parser
only ever applies it to whitespace-free tokens); the value is the exact
rational rather than the nearest binary float. -/

def isDigitCh (c : Char) : Bool :=
  0x30 ≤ c.toNat && c.toNat ≤ 0x39

def digitsToNat (ds : List Char) : Nat :=
  ds.foldl (fun a c => 10 * a + (c.toNat - 0x30)) 0

def pow10 : Nat → Rat
  | 0 => 1
  | n + 1 => 10 * pow10 n

/-- Scale by a signed power of ten (the exponent part of a float literal). -/
def ratTimesExp (q : Rat) (e : Int) : Rat :=
  if 0 ≤ e then q * pow10 e.toNat else q / pow10 (-e).toNat

/-- The value of integer digits `ip`, fraction digits `fp`, exponent `e`. -/
def ratFromParts (ip fp : List Char) (e : Int) : Rat :=
  ratTimesExp ((digitsToNat ip : Rat) + (digitsToNat fp : Rat) / pow10 fp.length) e

/-- Strip a leading sign: `(isNegative, rest)`. -/
def readSign : List Char → Bool × List Char
  | [] => (false, [])
  | c :: r =>
    if c = '-' then (true, r)
    else if c = '+' then (false, r)
    else (false, c :: r)

/-- A non-empty all-digit run, as a natural number. -/
def expDigitsNat (ds : List Char) : Option Nat :=
  if ds ≠ [] ∧ ds.all isDigitCh then some (digitsToNat ds) else none

/-- The signed digit run after the `e`/`E` of an exponent. -/
def expSigned : List Char → Option Int
  | [] => none
  | d :: ds =>
    if d = '+' then (expDigitsNat ds).map Int.ofNat
    else if d = '-' then (expDigitsNat ds).map (fun n => -(Int.ofNat n))
    else (expDigitsNat (d :: ds)).map Int.ofNat

/-- Parse the exponent suffix after the mantissa; `[]` means exponent 0,
otherwise `e`/`E`, an optional sign and at least one digit, consuming
everything. -/
def parseExpPart : List Char → Option Int
  | [] => some 0
  | c :: cs => if c = 'e' ∨ c = 'E' then expSigned cs else none

/-- The unsigned part of `float()`: mantissa then exponent. -/
def pyFloatBody (cs1 : List Char) : Option Rat :=
  let ip := cs1.takeWhile isDigitCh
  match cs1.dropWhile isDigitCh with
  | [] => if ip = [] then none else (parseExpPart []).map (ratFromParts ip [])
  | c :: r2 =>
    if c = '.' then
      let fp := r2.takeWhile isDigitCh
      if ip = [] ∧ fp = [] then none
      else (parseExpPart (r2.dropWhile isDigitCh)).map (ratFromParts ip fp)
    else if ip = [] then none
    else (parseExpPart (c :: r2)).map (ratFromParts ip [])

/-- Python `float()` on a character list. -/
def pyFloatChars (cs : List Char) : Option Rat :=
  let sr := readSign cs
  (pyFloatBody sr.2).map (fun q => if sr.1 then -q else q)

/-- Python `float()` on a string; `none` is a raised `ValueError`. -/
def pyFloat? (s : String) : Option Rat :=
  pyFloatChars s.data

/-- `float(parts[i].replace(',', '.'))` from `handle_expense`:
the conversion tried on each candidate amount token. -/
def convertToken (t : String) : Option Rat :=
  pyFloat? (replaceCommaDot t)

/-! ## The expense parser (`handle_expense`, src/bot.py lines 94-137) -/

inductive ParseError where
  | TooFewTokens
  | NoAmountFound
deriving DecidableEq, Repr

structure ParsedExpense where
  category : String
  description : String
  amount : Rat
  amountIndex : Nat
deriving DecidableEq, Repr

/-- The loop `for i in range(1, len(parts))`: the first token convertible
by `convertToken` wins, together with its index (`i` is the index of the
head of the remaining list in the full token list). -/
def findAmount : List String → Nat → Option (Rat × Nat)
  | [], _ => none
  | t :: ts, i =>
    match convertToken t with
    | some q => some (q, i)
    | none => findAmount ts (i + 1)

/-- The parsing portion of `handle_expense`: strip, split, category from
the lowercased first token, amount from the first convertible token at
index ≥ 1, description from the tokens strictly before the amount
(defaulting to the category when the amount is at index 1). -/
def parse (text : String) : Except ParseError ParsedExpense :=
  match pySplit (pyStrip text) with
  | p0 :: p1 :: rest =>
    let category := pyLower p0
    match findAmount (p1 :: rest) 1 with
    | none => Except.error ParseError.NoAmountFound
    | some (amount, amountIndex) =>
      let description :=
        if amountIndex = 1 then category
        else String.intercalate " " ((p1 :: rest).take (amountIndex - 1))
      Except.ok ⟨category, description, amount, amountIndex⟩
  | _ => Except.error ParseError.TooFewTokens

/-! ## The user-facing replies of `handle_expense` -/

/-- Reply sent when the message has fewer than two tokens. -/
def msgTooFew : String :=
  "❌ Слишком мало данных!\n\nФормат: <категория> <название> <сумма>\nПример: еда дельпапа 12000"

/-- Reply sent when no token at index ≥ 1 converts to a number. -/
def msgNoAmount : String :=
  "❌ Не нашел сумму!\n\nУкажи число в сообщении.\nПример: еда дельпапа 12000"

/-! ## Rendering numbers the way Python's `str()` does

`str(float)` prints the shortest decimal that round-trips; for the exact
decimal values the bot handles this is the plain decimal expansion, with a
trailing `.0` for integral values.  Fuel-based structural recursion keeps
every definition kernel-evaluable. -/

/-- Decimal digits of `n`, most significant first, prepended to `acc`. -/
def natToStrAux : Nat → Nat → List Char → List Char
  | 0, _, acc => acc
  | fuel + 1, n, acc =>
    let d := Char.ofNat (0x30 + n % 10)
    if n < 10 then d :: acc else natToStrAux fuel (n / 10) (d :: acc)

def natToStr (n : Nat) : String :=
  String.mk (natToStrAux (n + 1) n [])

/-- Digits of a fractional part `0 ≤ q < 1`, at most `fuel` of them. -/
def fracDigits : Nat → Rat → List Char
  | 0, _ => []
  | fuel + 1, q =>
    if q = 0 then []
    else Char.ofNat (0x30 + (q * 10).floor.toNat) :: fracDigits fuel (q * 10 - (q * 10).floor)

/-- Python `str()` of a float value, e.g. `str(2000.0) = "2000.0"`,
`str(12.5) = "12.5"` (17 fraction digits bound the double's precision). -/
def pyFloatStr (q : Rat) : String :=
  (if q < 0 then "-" else "")
    ++ natToStr (|q|.floor.toNat) ++ "."
    ++ (if |q| - |q|.floor = 0 then "0" else String.mk (fracDigits 17 (|q| - |q|.floor)))

/-- The text `handle_expense` replies with: the two parse-failure guidance
messages, or the confirmation echoing the parsed record. -/
def handleExpenseReply (text : String) : String :=
  match parse text with
  | Except.error ParseError.TooFewTokens => msgTooFew
  | Except.error ParseError.NoAmountFound => msgNoAmount
  | Except.ok r =>
    "✅ Записано!\n\n📂 Категория: " ++ r.category ++ "\n📝 Название: " ++ r.description
      ++ "\n💰 Сумма: " ++ pyFloatStr r.amount ++ " ₸"

/-! ## Lemmas: lowercasing -/

theorem toNat_ofNat_of_lt (n : Nat) (h : n < 0xd800) : (Char.ofNat n).toNat = n := by
  have hv : n.isValidChar := Or.inl h
  simp [Char.ofNat, hv, Char.ofNatAux, Char.toNat]
  rfl

theorem pyCharLower_fix (c : Char)
    (h1 : ¬(0x41 ≤ c.toNat ∧ c.toNat ≤ 0x5A))
    (h2 : ¬(0x410 ≤ c.toNat ∧ c.toNat ≤ 0x42F))
    (h3 : c.toNat ≠ 0x401) : pyCharLower c = c := by
  unfold pyCharLower
  rw [if_neg h1, if_neg h2, if_neg h3]

theorem pyCharLower_idem (c : Char) : pyCharLower (pyCharLower c) = pyCharLower c := by
  by_cases h1 : 0x41 ≤ c.toNat ∧ c.toNat ≤ 0x5A
  · have e : pyCharLower c = Char.ofNat (c.toNat + 0x20) := by
      unfold pyCharLower; rw [if_pos h1]
    have t : (pyCharLower c).toNat = c.toNat + 0x20 := by
      rw [e, toNat_ofNat_of_lt] ; omega
    refine pyCharLower_fix _ ?_ ?_ ?_ <;> rw [t] <;> omega
  by_cases h2 : 0x410 ≤ c.toNat ∧ c.toNat ≤ 0x42F
  · have e : pyCharLower c = Char.ofNat (c.toNat + 0x20) := by
      unfold pyCharLower; rw [if_neg h1, if_pos h2]
    have t : (pyCharLower c).toNat = c.toNat + 0x20 := by
      rw [e, toNat_ofNat_of_lt] ; omega
    refine pyCharLower_fix _ ?_ ?_ ?_ <;> rw [t] <;> omega
  by_cases h3 : c.toNat = 0x401
  · have e : pyCharLower c = Char.ofNat 0x451 := by
      unfold pyCharLower; rw [if_neg h1, if_neg h2, if_pos h3]
    have t : (pyCharLower c).toNat = 0x451 := by
      rw [e, toNat_ofNat_of_lt] ; omega
    refine pyCharLower_fix _ ?_ ?_ ?_ <;> rw [t] <;> omega
  · rw [pyCharLower_fix c h1 h2 h3, pyCharLower_fix c h1 h2 h3]

theorem pyLower_idem (s : String) : pyLower (pyLower s) = pyLower s := by
  unfold pyLower
  apply congrArg
  simp [List.map_map, Function.comp_def, pyCharLower_idem]

theorem pyLower_ne_empty (s : String) (h : s ≠ "") : pyLower s ≠ "" := by
  intro he
  apply h
  have : (pyLower s).data = [] := by rw [he]
  have hd : s.data.map pyCharLower = [] := this
  have : s.data = [] := by
    cases hs : s.data with
    | nil => rfl
    | cons a l => rw [hs] at hd ; simp at hd
  cases s with
  | mk d => cases this ; rfl



/-! ## Lemmas: tokens produced by `pySplit` are non-empty -/

theorem mk_ne_empty (l : List Char) (h : l ≠ []) : String.mk l ≠ "" := by
  intro he
  apply h
  have : (String.mk l).data = ("" : String).data := by rw [he]
  exact this

theorem pySplitAux_ne_empty (cs : List Char) :
    ∀ (cur : List Char) (t : String), t ∈ pySplitAux cs cur → t ≠ "" := by
  induction cs with
  | nil =>
    intro cur t ht
    cases cur with
    | nil => simp [pySplitAux] at ht
    | cons a l =>
      simp only [pySplitAux, List.mem_singleton] at ht
      subst ht
      exact mk_ne_empty _ (by simp)
  | cons c cs ih =>
    intro cur t ht
    cases hsp : pyIsSpace c with
    | false =>
      simp only [pySplitAux, hsp, Bool.false_eq_true, if_false] at ht
      exact ih _ _ ht
    | true =>
      simp only [pySplitAux, hsp, if_true] at ht
      cases cur with
      | nil => exact ih _ _ ht
      | cons a l =>
        rcases List.mem_cons.mp ht with he | hm
        · subst he
          exact mk_ne_empty _ (by simp)
        · exact ih _ _ hm

theorem mem_pySplit_ne_empty (s : String) (t : String) (h : t ∈ pySplit s) : t ≠ "" :=
  pySplitAux_ne_empty s.data [] t h

/-! ## Lemmas: the amount-search loop -/

theorem findAmount_none_iff (ts : List String) (j : Nat) :
    findAmount ts j = none ↔ ∀ t ∈ ts, convertToken t = none := by
  induction ts generalizing j with
  | nil => simp [findAmount]
  | cons t ts ih =>
    cases hc : convertToken t with
    | some q =>
      simp only [findAmount, hc]
      constructor
      · intro h; cases h
      · intro h
        exact absurd (h t (List.mem_cons_self t ts)) (by simp [hc])
    | none =>
      simp only [findAmount, hc, ih]
      constructor
      · intro h u hu
        rcases List.mem_cons.mp hu with he | hm
        · subst he; exact hc
        · exact h u hm
      · intro h u hu
        exact h u (List.mem_cons_of_mem _ hu)

theorem findAmount_some_spec (ts : List String) (j : Nat) (q : Rat) (i : Nat)
    (h : findAmount ts j = some (q, i)) :
    j ≤ i ∧ (∃ t, ts[i - j]? = some t ∧ convertToken t = some q) ∧
      (∀ k t, k < i - j → ts[k]? = some t → convertToken t = none) := by
  induction ts generalizing j with
  | nil => simp [findAmount] at h
  | cons t ts ih =>
    cases hc : convertToken t with
    | some q0 =>
      simp only [findAmount, hc, Option.some.injEq, Prod.mk.injEq] at h
      obtain ⟨hq, hi⟩ := h
      subst hq; subst hi
      refine ⟨Nat.le_refl _, ⟨t, by simp, hc⟩, ?_⟩
      intro k u hk
      omega
    | none =>
      simp only [findAmount, hc] at h
      obtain ⟨hle, ⟨u, hu, hcu⟩, hall⟩ := ih (j + 1) h
      have hji : j + 1 ≤ i := hle
      refine ⟨by omega, ⟨u, ?_, hcu⟩, ?_⟩
      · have : i - j = (i - (j + 1)) + 1 := by omega
        rw [this]
        simpa using hu
      · intro k v hk hv
        cases k with
        | zero =>
          have : t = v := by simpa using hv
          subst this; exact hc
        | succ m =>
          have hm : m < i - (j + 1) := by omega
          exact hall m v hm (by simpa using hv)



/-! ## Shape lemmas for `parse` -/

theorem parse_ok_shape (text : String) (p0 p1 : String) (rest : List String)
    (hl : pySplit (pyStrip text) = p0 :: p1 :: rest)
    (q : Rat) (i : Nat) (hf : findAmount (p1 :: rest) 1 = some (q, i)) :
    parse text = Except.ok ⟨pyLower p0,
      if i = 1 then pyLower p0 else String.intercalate " " ((p1 :: rest).take (i - 1)),
      q, i⟩ := by
  unfold parse
  simp only [hl, hf]

theorem parse_noAmount_shape (text : String) (p0 p1 : String) (rest : List String)
    (hl : pySplit (pyStrip text) = p0 :: p1 :: rest)
    (hf : findAmount (p1 :: rest) 1 = none) :
    parse text = Except.error ParseError.NoAmountFound := by
  unfold parse
  simp only [hl, hf]

theorem parse_tooFew_nil (text : String) (hl : pySplit (pyStrip text) = []) :
    parse text = Except.error ParseError.TooFewTokens := by
  unfold parse
  simp only [hl]

theorem parse_tooFew_single (text : String) (p0 : String)
    (hl : pySplit (pyStrip text) = [p0]) :
    parse text = Except.error ParseError.TooFewTokens := by
  unfold parse
  simp only [hl]


instance : DecidableEq (Except ParseError ParsedExpense) := fun a b =>
  match a, b with
  | Except.ok x, Except.ok y =>
    if h : x = y then Decidable.isTrue (by rw [h]) else Decidable.isFalse (by simp [h])
  | Except.error x, Except.error y =>
    if h : x = y then Decidable.isTrue (by rw [h]) else Decidable.isFalse (by simp [h])
  | Except.ok _, Except.error _ => Decidable.isFalse (by simp)
  | Except.error _, Except.ok _ => Decidable.isFalse (by simp)


/-- C1: with at least two whitespace tokens and a convertible token at
index ≥ 1, `parse` succeeds, the category is the lowercased first token and
the amount comes from the first convertible token at index ≥ 1 (never the
token at index 0). -/
theorem parse_success_spec (text : String) (p0 : String) (rest : List String)
    (hsplit : pySplit (pyStrip text) = p0 :: rest)
    (hconv : ∃ t ∈ rest, (convertToken t).isSome) :
    ∃ r, parse text = Except.ok r ∧ r.category = pyLower p0 ∧ 1 ≤ r.amountIndex ∧
      (∃ t, (p0 :: rest)[r.amountIndex]? = some t ∧ convertToken t = some r.amount) ∧
      ∀ k t, 1 ≤ k → k < r.amountIndex → (p0 :: rest)[k]? = some t →
        convertToken t = none := by
  obtain ⟨t0, ht0, hc0⟩ := hconv
  cases rest with
  | nil => cases ht0
  | cons p1 rest0 =>
    have hne : findAmount (p1 :: rest0) 1 ≠ none := by
      intro hfn
      have hall := (findAmount_none_iff _ _).mp hfn
      rw [hall t0 ht0] at hc0
      cases hc0
    cases hf : findAmount (p1 :: rest0) 1 with
    | none => exact absurd hf hne
    | some pr =>
      obtain ⟨q, i⟩ := pr
      obtain ⟨h1i, ⟨u, hu, hcu⟩, hall⟩ := findAmount_some_spec _ _ _ _ hf
      refine ⟨_, parse_ok_shape text p0 p1 rest0 hsplit q i hf, rfl, ?_, ?_, ?_⟩
      · exact h1i
      · refine ⟨u, ?_, hcu⟩
        show (p0 :: p1 :: rest0)[i]? = some u
        have hi : i - 1 + 1 = i := by omega
        rw [← hi]
        simpa using hu
      · show ∀ k t, 1 ≤ k → k < i → (p0 :: p1 :: rest0)[k]? = some t → convertToken t = none
        intro k v hk1 hki hv
        have hk : k - 1 < i - 1 := by omega
        apply hall (k - 1) v hk
        have hkk : k - 1 + 1 = k := by omega
        rw [← hkk] at hv
        simpa using hv

/-- C1 witness: the theorem applied to the concrete message
`"еда дельпапа 12000"`. -/
theorem parse_success_spec_witness :
    ∃ r, parse "еда дельпапа 12000" = Except.ok r ∧
      r.category = pyLower "еда" ∧ 1 ≤ r.amountIndex ∧
      (∃ t, (("еда" : String) :: ["дельпапа", "12000"])[r.amountIndex]? = some t ∧
        convertToken t = some r.amount) ∧
      ∀ k t, 1 ≤ k → k < r.amountIndex →
        (("еда" : String) :: ["дельпапа", "12000"])[k]? = some t →
        convertToken t = none :=
  parse_success_spec "еда дельпапа 12000" "еда" ["дельпапа", "12000"]
    (by decide) ⟨"12000", by decide, by decide⟩


/-- C2 counterexample: the message `"еда -5"` is accepted by the parser and
persists an `ExpenseRecord` with the negative amount `-5`, so the amount
invariant `0 < amount` claimed by the spec does not hold. -/
theorem parse_accepts_nonpositive_amount :
    parse "еда -5" = Except.ok ⟨"еда", "еда", -5, 1⟩ ∧ ¬ (0 < (-5 : Rat)) := by
  constructor
  · decide
  · decide

/-- C2 amended: every record the free-text handler persists has a non-empty
category that is a fixed point of lowercasing; the amount, however, is
only the converted value of the winning token and may be zero or negative. -/
theorem parsed_category_invariant (text : String) (r : ParsedExpense)
    (h : parse text = Except.ok r) :
    r.category ≠ "" ∧ pyLower r.category = r.category := by
  rcases hl : pySplit (pyStrip text) with _ | ⟨p0, _ | ⟨p1, rest⟩⟩
  · rw [parse_tooFew_nil text hl] at h
    cases h
  · rw [parse_tooFew_single text p0 hl] at h
    cases h
  · cases hf : findAmount (p1 :: rest) 1 with
    | none =>
      rw [parse_noAmount_shape text p0 p1 rest hl hf] at h
      cases h
    | some pr =>
      obtain ⟨q, i⟩ := pr
      rw [parse_ok_shape text p0 p1 rest hl q i hf] at h
      have hr : r.category = pyLower p0 := by
        cases h
        rfl
      have hp0 : p0 ≠ "" :=
        mem_pySplit_ne_empty _ p0 (by rw [hl] ; exact List.mem_cons_self _ _)
      rw [hr]
      exact ⟨pyLower_ne_empty p0 hp0, pyLower_idem p0⟩

/-- C2 witness: the amended invariant at the concrete message `"еда -5"`. -/
theorem parsed_category_invariant_witness :
    (⟨"еда", "еда", -5, 1⟩ : ParsedExpense).category ≠ "" ∧
      pyLower (⟨"еда", "еда", -5, 1⟩ : ParsedExpense).category =
        (⟨"еда", "еда", -5, 1⟩ : ParsedExpense).category :=
  parsed_category_invariant "еда -5" ⟨"еда", "еда", -5, 1⟩ (by decide)

/-- C3: the description of a successful parse is the join of the tokens
strictly between the category and the amount token (`parts[1:amount_index]`),
defaulting to the category itself when the amount is at index 1; in
particular on `"такси 2000"` and `"еда дельпапа 12000"`. -/
theorem parse_description_spec (text : String) (r : ParsedExpense)
    (h : parse text = Except.ok r) :
    (r.amountIndex = 1 → r.description = r.category) ∧
    (r.amountIndex ≠ 1 → r.description =
      String.intercalate " " (((pySplit (pyStrip text)).drop 1).take (r.amountIndex - 1))) ∧
    parse "такси 2000" = Except.ok ⟨"такси", "такси", 2000, 1⟩ ∧
    parse "еда дельпапа 12000" = Except.ok ⟨"еда", "дельпапа", 12000, 2⟩ := by
  rcases hl : pySplit (pyStrip text) with _ | ⟨p0, _ | ⟨p1, rest⟩⟩
  · rw [parse_tooFew_nil text hl] at h
    cases h
  · rw [parse_tooFew_single text p0 hl] at h
    cases h
  · cases hf : findAmount (p1 :: rest) 1 with
    | none =>
      rw [parse_noAmount_shape text p0 p1 rest hl hf] at h
      cases h
    | some pr =>
      obtain ⟨q, i⟩ := pr
      rw [parse_ok_shape text p0 p1 rest hl q i hf] at h
      cases h
      refine ⟨?_, ?_, by decide, by decide⟩
      · intro hi
        have hi2 : i = 1 := hi
        show (if i = 1 then pyLower p0
            else String.intercalate " " ((p1 :: rest).take (i - 1))) = pyLower p0
        rw [if_pos hi2]
      · intro hi
        have hi2 : ¬ (i = 1) := hi
        show (if i = 1 then pyLower p0
            else String.intercalate " " ((p1 :: rest).take (i - 1))) =
          String.intercalate " " (((p0 :: p1 :: rest).drop 1).take (i - 1))
        rw [if_neg hi2]
        rfl

/-- C3 witness: the theorem applied at `"еда дельпапа 12000"`, where the
amount is at index 2 and the description is the single token between. -/
theorem parse_description_spec_witness :
    ((⟨"еда", "дельпапа", 12000, 2⟩ : ParsedExpense).amountIndex = 1 →
      (⟨"еда", "дельпапа", 12000, 2⟩ : ParsedExpense).description =
        (⟨"еда", "дельпапа", 12000, 2⟩ : ParsedExpense).category) ∧
    ((⟨"еда", "дельпапа", 12000, 2⟩ : ParsedExpense).amountIndex ≠ 1 →
      (⟨"еда", "дельпапа", 12000, 2⟩ : ParsedExpense).description =
        String.intercalate " "
          (((pySplit (pyStrip "еда дельпапа 12000")).drop 1).take
            ((⟨"еда", "дельпапа", 12000, 2⟩ : ParsedExpense).amountIndex - 1))) ∧
    parse "такси 2000" = Except.ok ⟨"такси", "такси", 2000, 1⟩ ∧
    parse "еда дельпапа 12000" = Except.ok ⟨"еда", "дельпапа", 12000, 2⟩ :=
  parse_description_spec "еда дельпапа 12000" ⟨"еда", "дельпапа", 12000, 2⟩ (by decide)


/-- C4: `parse` fails with `TooFewTokens` exactly when the stripped input
splits into fewer than two tokens, and with `NoAmountFound` exactly when
there are at least two tokens but none at index ≥ 1 converts; both failures
produce the guidance reply, which contains the format example. -/
theorem parse_failure_spec (text : String) :
    (parse text = Except.error ParseError.TooFewTokens ↔
      (pySplit (pyStrip text)).length < 2) ∧
    (parse text = Except.error ParseError.NoAmountFound ↔
      2 ≤ (pySplit (pyStrip text)).length ∧
        ∀ t ∈ (pySplit (pyStrip text)).drop 1, convertToken t = none) ∧
    (parse text = Except.error ParseError.TooFewTokens →
      handleExpenseReply text = msgTooFew) ∧
    (parse text = Except.error ParseError.NoAmountFound →
      handleExpenseReply text = msgNoAmount) ∧
    parse "еда" = Except.error ParseError.TooFewTokens ∧
    (∃ a b, msgTooFew = a ++ "Пример: еда дельпапа 12000" ++ b) ∧
    (∃ a b, msgNoAmount = a ++ "Пример: еда дельпапа 12000" ++ b) := by
  refine ⟨?_, ?_, ?_, ?_, by decide,
    ⟨"❌ Слишком мало данных!\n\nФормат: <категория> <название> <сумма>\n", "", by decide⟩,
    ⟨"❌ Не нашел сумму!\n\nУкажи число в сообщении.\n", "", by decide⟩⟩
  · rcases hl : pySplit (pyStrip text) with _ | ⟨p0, _ | ⟨p1, rest⟩⟩
    · rw [parse_tooFew_nil text hl]
      simp
    · rw [parse_tooFew_single text p0 hl]
      simp
    · constructor
      · intro h
        cases hf : findAmount (p1 :: rest) 1 with
        | none =>
          rw [parse_noAmount_shape text p0 p1 rest hl hf] at h
          cases h
        | some pr =>
          obtain ⟨q, i⟩ := pr
          rw [parse_ok_shape text p0 p1 rest hl q i hf] at h
          cases h
      · intro h
        simp at h
        omega
  · rcases hl : pySplit (pyStrip text) with _ | ⟨p0, _ | ⟨p1, rest⟩⟩
    · rw [parse_tooFew_nil text hl]
      constructor
      · intro h
        cases h
      · intro h
        simp at h
    · rw [parse_tooFew_single text p0 hl]
      constructor
      · intro h
        cases h
      · intro h
        simp at h
    · cases hf : findAmount (p1 :: rest) 1 with
      | none =>
        rw [parse_noAmount_shape text p0 p1 rest hl hf]
        constructor
        · intro _
          refine ⟨by simp, ?_⟩
          intro t ht
          exact (findAmount_none_iff _ _).mp hf t (by simpa using ht)
        · intro _
          rfl
      | some pr =>
        obtain ⟨q, i⟩ := pr
        rw [parse_ok_shape text p0 p1 rest hl q i hf]
        constructor
        · intro h
          cases h
        · intro h
          obtain ⟨-, hall⟩ := h
          obtain ⟨-, ⟨u, hu, hcu⟩, -⟩ := findAmount_some_spec _ _ _ _ hf
          have hmem : u ∈ p1 :: rest := by
            have := List.getElem?_mem hu
            exact this
          have : convertToken u = none := hall u (by simpa using hmem)
          rw [this] at hcu
          cases hcu
  · intro h
    unfold handleExpenseReply
    rw [h]
  · intro h
    unfold handleExpenseReply
    rw [h]


/-! ## Lemmas: a convertible token has at most one decimal point -/

theorem countP_dot_digits (l : List Char) (hall : ∀ a ∈ l, isDigitCh a = true) :
    l.countP (fun c => c == '.') = 0 := by
  rw [List.countP_eq_zero]
  intro a ha
  have hd := hall a ha
  intro he
  rw [eq_of_beq he] at hd
  cases hd

theorem countP_dot_takeWhile (l : List Char) :
    (l.takeWhile isDigitCh).countP (fun c => c == '.') = 0 :=
  countP_dot_digits _ (fun _ ha => List.mem_takeWhile_imp ha)

theorem expDigitsNat_no_dot (ds : List Char) (n : Nat) (h : expDigitsNat ds = some n) :
    ds.countP (fun c => c == '.') = 0 := by
  unfold expDigitsNat at h
  split at h
  · next hc =>
    exact countP_dot_digits ds (by simpa [List.all_eq_true] using hc.2)
  · cases h

theorem expSigned_no_dot (cs : List Char) (e : Int) (h : expSigned cs = some e) :
    cs.countP (fun c => c == '.') = 0 := by
  cases cs with
  | nil => rfl
  | cons d ds =>
    simp only [expSigned] at h
    by_cases hd1 : d = '+'
    · rw [if_pos hd1] at h
      obtain ⟨n, hn, -⟩ := Option.map_eq_some'.mp h
      have := expDigitsNat_no_dot ds n hn
      simp [List.countP_cons, hd1, this]
    · rw [if_neg hd1] at h
      by_cases hd2 : d = '-'
      · rw [if_pos hd2] at h
        obtain ⟨n, hn, -⟩ := Option.map_eq_some'.mp h
        have := expDigitsNat_no_dot ds n hn
        simp [List.countP_cons, hd2, this]
      · rw [if_neg hd2] at h
        obtain ⟨n, hn, -⟩ := Option.map_eq_some'.mp h
        exact expDigitsNat_no_dot (d :: ds) n hn

theorem parseExpPart_no_dot (r : List Char) (e : Int) (h : parseExpPart r = some e) :
    r.countP (fun c => c == '.') = 0 := by
  cases r with
  | nil => rfl
  | cons c cs =>
    simp only [parseExpPart] at h
    by_cases hce : c = 'e' ∨ c = 'E'
    · rw [if_pos hce] at h
      have hcnot : (c == '.') = false := by
        rcases hce with h1 | h1 <;> simp [h1]
      have := expSigned_no_dot cs e h
      simp only [List.countP_cons, hcnot, Bool.false_eq_true, if_false, this]
    · rw [if_neg hce] at h
      cases h

theorem pyFloatBody_dot_le (cs1 : List Char) (q : Rat) (h : pyFloatBody cs1 = some q) :
    cs1.countP (fun c => c == '.') ≤ 1 := by
  have hsplit : cs1.takeWhile isDigitCh ++ cs1.dropWhile isDigitCh = cs1 :=
    List.takeWhile_append_dropWhile isDigitCh cs1
  have hip := countP_dot_takeWhile cs1
  rw [← hsplit, List.countP_append, hip, Nat.zero_add]
  cases hm : cs1.dropWhile isDigitCh with
  | nil => simp
  | cons c r2 =>
    simp only [pyFloatBody, hm] at h
    by_cases hc : c = '.'
    · rw [if_pos hc] at h
      have hfp := countP_dot_takeWhile r2
      have hr2 : r2.takeWhile isDigitCh ++ r2.dropWhile isDigitCh = r2 :=
        List.takeWhile_append_dropWhile isDigitCh r2
      split at h
      · cases h
      · obtain ⟨e, he, -⟩ := Option.map_eq_some'.mp h
        have hexp := parseExpPart_no_dot _ e he
        rw [List.countP_cons, ← hr2, List.countP_append, hfp, hexp]
        simp [hc]
    · rw [if_neg hc] at h
      split at h
      · cases h
      · obtain ⟨e, he, -⟩ := Option.map_eq_some'.mp h
        have hexp := parseExpPart_no_dot _ e he
        rw [hexp]
        omega

theorem pyFloatChars_dot_le (cs : List Char) (q : Rat) (h : pyFloatChars cs = some q) :
    cs.countP (fun c => c == '.') ≤ 1 := by
  unfold pyFloatChars at h
  obtain ⟨q0, hb, -⟩ := Option.map_eq_some'.mp h
  cases cs with
  | nil => simp
  | cons c r =>
    by_cases h1 : c = '-'
    · have hsr : (readSign (c :: r)).2 = r := by simp [readSign, h1]
      rw [hsr] at hb
      have := pyFloatBody_dot_le _ _ hb
      have hcnot : (c == '.') = false := by simp [h1]
      simp only [List.countP_cons, hcnot, Bool.false_eq_true, if_false]
      omega
    · by_cases h2 : c = '+'
      · have hsr : (readSign (c :: r)).2 = r := by simp [readSign, h1, h2]
        rw [hsr] at hb
        have := pyFloatBody_dot_le _ _ hb
        have hcnot : (c == '.') = false := by simp [h2]
        simp only [List.countP_cons, hcnot, Bool.false_eq_true, if_false]
        omega
      · have hsr : (readSign (c :: r)).2 = c :: r := by simp [readSign, h1, h2]
        rw [hsr] at hb
        exact pyFloatBody_dot_le _ _ hb

theorem countP_dot_after_replace (cs : List Char) :
    (cs.map (fun c => if c = ',' then '.' else c)).countP (fun c => c == '.') =
      cs.countP (fun c => c == ',' || c == '.') := by
  induction cs with
  | nil => rfl
  | cons c cs ih =>
    by_cases h1 : c = ','
    · simp [List.countP_cons, h1, ih]
    · by_cases h2 : c = '.' <;> simp [List.countP_cons, h1, h2, ih]

/-- C9: amount detection replaces every comma by a dot before conversion, so
`"12,5"` converts to `12.5`, `"12,000"` converts to `12.0`, and any token
with two or more commas or dots fails conversion and is skipped. -/
theorem comma_replacement_spec :
    (∀ t : String, (replaceCommaDot t).data =
      t.data.map (fun c => if c = ',' then '.' else c)) ∧
    convertToken "12,5" = some ((25 : Rat) / 2) ∧
    convertToken "12,000" = some (12 : Rat) ∧
    (∀ t : String, 2 ≤ t.data.countP (fun c => c == ',' || c == '.') →
      convertToken t = none) := by
  refine ⟨fun t => rfl, by decide, by decide, ?_⟩
  intro t h2
  cases hc : convertToken t with
  | none => rfl
  | some q =>
    exfalso
    have hdot := pyFloatChars_dot_le (replaceCommaDot t).data q hc
    rw [show (replaceCommaDot t).data = t.data.map (fun c => if c = ',' then '.' else c) from rfl,
      countP_dot_after_replace] at hdot
    omega


/-! ## The report renderer (`show_period`, src/bot.py lines 142-228)

A store row, as the reporter consumes it: `amount` (the `REAL` column, as
an exact rational), `category`, `description`, and the `'%m-%d'` rendering
of the row's timestamp (the only use the reporter makes of the date). -/

structure Exp where
  amount : Rat
  category : String
  description : String
  dateStr : String
deriving DecidableEq, Repr

/-- `categories_data[category].append({...})`: an insertion-ordered map
from category to its rows, in delivery order. -/
def addToGroups (gs : List (String × List Exp)) (e : Exp) : List (String × List Exp) :=
  match gs with
  | [] => [(e.category, [e])]
  | (k, items) :: rest =>
    if k = e.category then (k, items ++ [e]) :: rest
    else (k, items) :: addToGroups rest e

/-- The grouping loop of `show_period` over the store's newest-first rows. -/
def categoriesData (expenses : List Exp) : List (String × List Exp) :=
  expenses.foldl addToGroups []

/-- `total += amount`, accumulated over every row. -/
def reportTotal (expenses : List Exp) : Rat :=
  expenses.foldl (fun t e => t + e.amount) 0

/-- `sum(item['amount'] for item in items)` for one category entry. -/
def catSum (g : String × List Exp) : Rat :=
  (g.2.map Exp.amount).sum

/-- Stable insertion for descending order: `x` goes before the first
element whose key is not greater than its own. -/
def insertDescBy {α : Type} (key : α → Rat) (x : α) : List α → List α
  | [] => [x]
  | h :: t => if key x < key h then h :: insertDescBy key x t else x :: h :: t

/-- Python's `sorted(..., key=..., reverse=True)`: stable descending sort
(insertion sort has the same graph as timsort under these constraints). -/
def sortDescBy {α : Type} (key : α → Rat) : List α → List α
  | [] => []
  | x :: xs => insertDescBy key x (sortDescBy key xs)

/-- `sorted(categories_data.items(), key=..., reverse=True)`. -/
def sortedCategories (expenses : List Exp) : List (String × List Exp) :=
  sortDescBy catSum (categoriesData expenses)

/-- `"  • {description}: {amount} ₸ ({date_str})\n"`. -/
def itemLine (e : Exp) : String :=
  "  • " ++ e.description ++ ": " ++ pyFloatStr e.amount ++ " ₸ (" ++ e.dateStr ++ ")\n"

def strJoin : List String → String
  | [] => ""
  | s :: rest => s ++ strJoin rest

/-- One category's block: heading with the category total, up to `cap`
item lines, a `"... и еще N позиций"` marker when over the cap, and a
blank line. -/
def sectionWithCap (cap : Nat) (g : String × List Exp) : String :=
  "📂 " ++ pyUpper g.1 ++ ": " ++ pyFloatStr (catSum g) ++ " ₸\n"
    ++ strJoin ((g.2.take cap).map itemLine)
    ++ (if cap < g.2.length then
          "  ... и еще " ++ natToStr (g.2.length - cap) ++ " позиций\n"
        else "")
    ++ "\n"

def reportHeader (periodName : String) : String :=
  "📊 Расходы за " ++ periodName ++ ":\n\n"

def totalLine (t : Rat) : String :=
  "💵 ИТОГО: " ++ pyFloatStr t ++ " ₸"

/-- The single-message rendering (15-item cap). -/
def fullText (expenses : List Exp) (periodName : String) : String :=
  reportHeader periodName
    ++ strJoin ((sortedCategories expenses).map (sectionWithCap 15))
    ++ totalLine (reportTotal expenses)

/-- One pagination step: flush the buffer when appending the next category
block would push it past 3900 characters, else append. -/
def pagStep (st : List String × String) (sec : String) : List String × String :=
  if 3900 < st.2.length + sec.length then (st.1 ++ [st.2], sec)
  else (st.1, st.2 ++ sec)

/-- The pagination loop of `show_period`: start the buffer at the header,
fold the 10-cap category blocks, then append the grand total to the final
buffer (the `if current_msg:` test of the source). -/
def paginate (header : String) (sections : List String) (total : String) : List String :=
  let st := sections.foldl pagStep ([], header)
  if st.2 = "" then st.1 else st.1 ++ [st.2 ++ total]

/-- `show_period`'s reply messages: the empty-period message, the single
text when it fits in 4000 characters, or the paginated messages. -/
def renderReport (expenses : List Exp) (periodName : String) : List String :=
  match expenses with
  | [] => ["📭 За " ++ periodName ++ " расходов нет."]
  | _ =>
    let text := fullText expenses periodName
    if 4000 < text.length then
      paginate (reportHeader periodName)
        ((sortedCategories expenses).map (sectionWithCap 10))
        (totalLine (reportTotal expenses))
    else [text]

/-! ## The category listing (`categories_list`, src/bot.py lines 242-275) -/

/-- `category_stats[category] += amount` over the 30-day rows:
an insertion-ordered map from category to its window total. -/
def addStat (st : List (String × Rat)) (e : Exp) : List (String × Rat) :=
  match st with
  | [] => [(e.category, e.amount)]
  | (k, v) :: rest =>
    if k = e.category then (k, v + e.amount) :: rest
    else (k, v) :: addStat rest e

def categoryStats (expenses : List Exp) : List (String × Rat) :=
  expenses.foldl addStat []

/-- The listing's lines as pairs: the 30-day categories sorted by
descending total, then every all-time category absent from the window,
with a zero total. -/
def catListing (categories : List String) (expenses : List Exp) : List (String × Rat) :=
  sortDescBy Prod.snd (categoryStats expenses)
    ++ (categories.filter
        (fun c => decide (c ∉ (categoryStats expenses).map Prod.fst))).map (fun c => (c, 0))

/-- The listing text: `"• {category}: {total} ₸"` for the 30-day
categories, then the literal `"• {cat}: 0 ₸"` zero lines. -/
def catListingText (categories : List String) (expenses : List Exp) : String :=
  "📂 Твои категории (за месяц):\n\n"
    ++ strJoin ((sortDescBy Prod.snd (categoryStats expenses)).map
        (fun p => "• " ++ p.1 ++ ": " ++ pyFloatStr p.2 ++ " ₸\n"))
    ++ strJoin ((categories.filter
        (fun c => decide (c ∉ (categoryStats expenses).map Prod.fst))).map
        (fun c => "• " ++ c ++ ": 0 ₸\n"))


/-! ## Lemmas: pagination never splits a category block -/

theorem strJoin_append (a b : List String) :
    strJoin (a ++ b) = strJoin a ++ strJoin b := by
  induction a with
  | nil => simp [strJoin, String.empty_append]
  | cons s a ih => simp [strJoin, ih, String.append_assoc]

theorem str_ne_empty_of_length (s : String) (h : 0 < s.length) : s ≠ "" := by
  intro he
  rw [he] at h
  cases h

theorem str_length_pos_of_ne (a : String) (ha : a ≠ "") : 0 < a.length := by
  cases a with
  | mk d =>
    cases d with
    | nil => exact absurd rfl ha
    | cons c cs => exact Nat.succ_pos _

theorem append_ne_empty_left (a b : String) (ha : a ≠ "") : a ++ b ≠ "" := by
  apply str_ne_empty_of_length
  rw [String.length_append]
  have := str_length_pos_of_ne a ha
  omega

/-- Append `t` to the final element of a non-empty list. -/
def appendToLast (t : String) : List String → List String
  | [] => []
  | [b] => [b ++ t]
  | b :: b2 :: bs => b :: appendToLast t (b2 :: bs)

theorem pagFold_snd_ne (sections : List String) :
    ∀ (msgs : List String) (cur : String), cur ≠ "" → (∀ s ∈ sections, s ≠ "") →
      (sections.foldl pagStep (msgs, cur)).2 ≠ "" := by
  induction sections with
  | nil => intro msgs cur hcur _ ; exact hcur
  | cons s secs ih =>
    intro msgs cur hcur hs
    have hsne : s ≠ "" := hs s (List.mem_cons_self _ _)
    have hrest : ∀ u ∈ secs, u ≠ "" := fun u hu => hs u (List.mem_cons_of_mem _ hu)
    show (List.foldl pagStep (pagStep (msgs, cur) s) secs).2 ≠ ""
    by_cases hflush : 3900 < cur.length + s.length
    · rw [show pagStep (msgs, cur) s = (msgs ++ [cur], s) from by
        unfold pagStep; rw [if_pos hflush]]
      exact ih _ s hsne hrest
    · rw [show pagStep (msgs, cur) s = (msgs, cur ++ s) from by
        unfold pagStep; rw [if_neg hflush]]
      exact ih _ (cur ++ s) (append_ne_empty_left cur s hcur) hrest

theorem pagFold_blocks (sections : List String) :
    ∀ (msgs : List String) (cur total : String), cur ≠ "" → (∀ s ∈ sections, s ≠ "") →
    ∃ (g0 : List String) (gs : List (List String)),
      g0 ++ gs.flatten = sections ∧ (∀ g ∈ gs, g ≠ []) ∧
      (sections.foldl pagStep (msgs, cur)).1
          ++ [(sections.foldl pagStep (msgs, cur)).2 ++ total] =
        msgs ++ appendToLast total ((cur ++ strJoin g0) :: gs.map strJoin) := by
  induction sections with
  | nil =>
    intro msgs cur total hcur _
    refine ⟨[], [], by simp, by simp, ?_⟩
    simp [appendToLast, strJoin, String.append_empty]
  | cons s secs ih =>
    intro msgs cur total hcur hs
    have hsne : s ≠ "" := hs s (List.mem_cons_self _ _)
    have hrest : ∀ u ∈ secs, u ≠ "" := fun u hu => hs u (List.mem_cons_of_mem _ hu)
    simp only [List.foldl_cons]
    by_cases hflush : 3900 < cur.length + s.length
    · rw [show pagStep (msgs, cur) s = (msgs ++ [cur], s) from by
        unfold pagStep; rw [if_pos hflush]]
      obtain ⟨g0, gs, hjoin, hgs, heq⟩ := ih (msgs ++ [cur]) s total hsne hrest
      refine ⟨[], (s :: g0) :: gs, by simp [hjoin], ?_, ?_⟩
      · intro g hg
        rcases List.mem_cons.mp hg with he | hm
        · subst he; simp
        · exact hgs g hm
      · rw [heq]
        have h1 : (cur ++ strJoin ([] : List String)) = cur := by
          simp [strJoin, String.append_empty]
        rw [h1]
        have h2 : strJoin (s :: g0) = s ++ strJoin g0 := rfl
        show (msgs ++ [cur]) ++ appendToLast total ((s ++ strJoin g0) :: gs.map strJoin) =
          msgs ++ appendToLast total (cur :: strJoin (s :: g0) :: gs.map strJoin)
        rw [h2]
        rw [show appendToLast total (cur :: (s ++ strJoin g0) :: gs.map strJoin) =
            cur :: appendToLast total ((s ++ strJoin g0) :: gs.map strJoin) from rfl]
        simp
    · rw [show pagStep (msgs, cur) s = (msgs, cur ++ s) from by
        unfold pagStep; rw [if_neg hflush]]
      obtain ⟨g0, gs, hjoin, hgs, heq⟩ :=
        ih msgs (cur ++ s) total (append_ne_empty_left cur s hcur) hrest
      refine ⟨s :: g0, gs, by simp [hjoin], hgs, ?_⟩
      rw [heq]
      have hc : cur ++ s ++ strJoin g0 = cur ++ strJoin (s :: g0) := by
        show cur ++ s ++ strJoin g0 = cur ++ (s ++ strJoin g0)
        rw [String.append_assoc]
      rw [hc]

theorem paginate_decomp (header total : String) (sections : List String)
    (hh : header ≠ "") (hs : ∀ s ∈ sections, s ≠ "") :
    ∃ (g0 : List String) (gs : List (List String)),
      g0 ++ gs.flatten = sections ∧ (∀ g ∈ gs, g ≠ []) ∧
      paginate header sections total =
        appendToLast total ((header ++ strJoin g0) :: gs.map strJoin) := by
  obtain ⟨g0, gs, hj, hgs, heq⟩ := pagFold_blocks sections [] header total hh hs
  have hne := pagFold_snd_ne sections [] header hh hs
  refine ⟨g0, gs, hj, hgs, ?_⟩
  unfold paginate
  rw [if_neg hne]
  simpa using heq

theorem appendToLast_decomp (t : String) (l : List String) (hl : l ≠ []) :
    ∃ msgs c, appendToLast t l = msgs ++ [c ++ t] ∧ strJoin msgs ++ c = strJoin l := by
  induction l with
  | nil => exact absurd rfl hl
  | cons b bs ih =>
    cases bs with
    | nil =>
      refine ⟨[], b, rfl, ?_⟩
      show strJoin [] ++ b = b ++ strJoin []
      show "" ++ b = b ++ ""
      rw [String.empty_append, String.append_empty]
    | cons b2 bs2 =>
      obtain ⟨msgs, c, heq, hjoin⟩ := ih (by simp)
      refine ⟨b :: msgs, c, ?_, ?_⟩
      · show b :: appendToLast t (b2 :: bs2) = b :: msgs ++ [c ++ t]
        rw [heq]
        rfl
      · show b ++ strJoin msgs ++ c = b ++ strJoin (b2 :: bs2)
        rw [String.append_assoc, hjoin]


theorem strJoin_flatten (gs : List (List String)) :
    strJoin (gs.map strJoin) = strJoin gs.flatten := by
  induction gs with
  | nil => rfl
  | cons g rest ih =>
    show strJoin g ++ strJoin (rest.map strJoin) = strJoin ((g :: rest).flatten)
    rw [ih, show (g :: rest).flatten = g ++ rest.flatten from rfl, strJoin_append]

theorem length_strJoin (l : List String) :
    (strJoin l).length = (l.map String.length).sum := by
  induction l with
  | nil => rfl
  | cons s rest ih =>
    show (s ++ strJoin rest).length = s.length + (rest.map String.length).sum
    rw [String.length_append, ih]

theorem sectionWithCap_ne_empty (cap : Nat) (g : String × List Exp) :
    sectionWithCap cap g ≠ "" := by
  unfold sectionWithCap
  apply append_ne_empty_left
  apply append_ne_empty_left
  apply append_ne_empty_left
  apply append_ne_empty_left
  apply append_ne_empty_left
  apply append_ne_empty_left
  apply append_ne_empty_left
  decide

theorem reportHeader_ne_empty (p : String) : reportHeader p ≠ "" := by
  unfold reportHeader
  apply append_ne_empty_left
  apply append_ne_empty_left
  decide

/-- Structure of the paginated branch of `show_period`: the blocks are
whole category sections grouped in order, the header opens the first
block and the grand total closes the last. -/
theorem renderReport_decomp (expenses : List Exp) (p : String) (hne : expenses ≠ [])
    (hbig : 4000 < (fullText expenses p).length) :
    ∃ (g0 : List String) (gs : List (List String)),
      g0 ++ gs.flatten = (sortedCategories expenses).map (sectionWithCap 10) ∧
      (∀ g ∈ gs, g ≠ []) ∧
      renderReport expenses p =
        appendToLast (totalLine (reportTotal expenses))
          ((reportHeader p ++ strJoin g0) :: gs.map strJoin) := by
  cases expenses with
  | nil => exact absurd rfl hne
  | cons e es =>
    have hr : renderReport (e :: es) p = paginate (reportHeader p)
        ((sortedCategories (e :: es)).map (sectionWithCap 10))
        (totalLine (reportTotal (e :: es))) := by
      simp only [renderReport]
      rw [if_pos hbig]
    rw [hr]
    exact paginate_decomp _ _ _ (reportHeader_ne_empty p)
      (fun s hs => by
        obtain ⟨g, _, hgs⟩ := List.mem_map.mp hs
        rw [← hgs]
        exact sectionWithCap_ne_empty 10 g)

/-! ## Concrete record sets exercising the pagination thresholds -/

def longDescA : String := String.mk (List.replicate 270 'x')

def recA : Exp := ⟨1, "a", longDescA, "01-01"⟩

/-- Fifteen long-description records in one category: the 15-cap rendering
exceeds 4000 characters while the 10-cap rendering fits one buffer. -/
def cexFifteen : List Exp := List.replicate 15 recA

def longDescB : String := String.mk (List.replicate 380 'y')

def recB : Exp := ⟨1, "a", longDescB, "01-01"⟩

/-- Ten records whose single category section alone exceeds 3900. -/
def cexTen : List Exp := List.replicate 10 recB

set_option maxRecDepth 8000 in
theorem itemLine_recA_length : (itemLine recA).length = 290 := by decide

set_option maxRecDepth 8000 in
theorem itemLine_recB_length : (itemLine recB).length = 400 := by decide

set_option maxRecDepth 16000 in
theorem sorted_cexFifteen : sortedCategories cexFifteen = [("a", cexFifteen)] := by decide

set_option maxRecDepth 16000 in
theorem sorted_cexTen : sortedCategories cexTen = [("a", cexTen)] := by decide

set_option maxRecDepth 8000 in
theorem secA15_length : (sectionWithCap 15 ("a", cexFifteen)).length = 4363 := by
  unfold sectionWithCap
  rw [String.length_append, String.length_append, String.length_append,
    String.length_append, String.length_append, String.length_append,
    String.length_append, length_strJoin]
  have hmap : (((("a", cexFifteen).2.take 15).map itemLine).map String.length) =
      List.replicate 15 290 := by
    show ((cexFifteen.take 15).map itemLine).map String.length = _
    rw [List.take_of_length_le (by decide : cexFifteen.length ≤ 15)]
    rw [show cexFifteen = List.replicate 15 recA from rfl, List.map_replicate,
      List.map_replicate, itemLine_recA_length]
  rw [hmap, List.sum_replicate, smul_eq_mul]
  rw [if_neg (by decide : ¬ 15 < ("a", cexFifteen).2.length)]
  decide

set_option maxRecDepth 8000 in
theorem secA10_length : (sectionWithCap 10 ("a", cexFifteen)).length = 2935 := by
  unfold sectionWithCap
  rw [String.length_append, String.length_append, String.length_append,
    String.length_append, String.length_append, String.length_append,
    String.length_append, length_strJoin]
  have hmap : (((("a", cexFifteen).2.take 10).map itemLine).map String.length) =
      List.replicate 10 290 := by
    show ((cexFifteen.take 10).map itemLine).map String.length = _
    rw [show cexFifteen.take 10 = List.replicate 10 recA from by decide]
    rw [List.map_replicate, List.map_replicate, itemLine_recA_length]
  rw [hmap, List.sum_replicate, smul_eq_mul]
  rw [if_pos (by decide : 10 < ("a", cexFifteen).2.length)]
  decide

set_option maxRecDepth 8000 in
theorem secB10_length : (sectionWithCap 10 ("a", cexTen)).length = 4013 := by
  unfold sectionWithCap
  rw [String.length_append, String.length_append, String.length_append,
    String.length_append, String.length_append, String.length_append,
    String.length_append, length_strJoin]
  have hmap : (((("a", cexTen).2.take 10).map itemLine).map String.length) =
      List.replicate 10 400 := by
    show ((cexTen.take 10).map itemLine).map String.length = _
    rw [List.take_of_length_le (by decide : cexTen.length ≤ 10)]
    rw [show cexTen = List.replicate 10 recB from rfl, List.map_replicate,
      List.map_replicate, itemLine_recB_length]
  rw [hmap, List.sum_replicate, smul_eq_mul]
  rw [if_neg (by decide : ¬ 10 < ("a", cexTen).2.length)]
  decide

set_option maxRecDepth 8000 in
theorem secB15_length : (sectionWithCap 15 ("a", cexTen)).length = 4013 := by
  unfold sectionWithCap
  rw [String.length_append, String.length_append, String.length_append,
    String.length_append, String.length_append, String.length_append,
    String.length_append, length_strJoin]
  have hmap : (((("a", cexTen).2.take 15).map itemLine).map String.length) =
      List.replicate 10 400 := by
    show ((cexTen.take 15).map itemLine).map String.length = _
    rw [List.take_of_length_le (by decide : cexTen.length ≤ 15)]
    rw [show cexTen = List.replicate 10 recB from rfl, List.map_replicate,
      List.map_replicate, itemLine_recB_length]
  rw [hmap, List.sum_replicate, smul_eq_mul]
  rw [if_neg (by decide : ¬ 15 < ("a", cexTen).2.length)]
  decide

theorem fullA_length : (fullText cexFifteen "p").length = 4395 := by
  unfold fullText
  rw [sorted_cexFifteen]
  simp only [List.map_cons, List.map_nil]
  rw [String.length_append, String.length_append, length_strJoin]
  simp only [List.map_cons, List.map_nil, secA15_length]
  decide

theorem fullB_length : (fullText cexTen "p").length = 4045 := by
  unfold fullText
  rw [sorted_cexTen]
  simp only [List.map_cons, List.map_nil]
  rw [String.length_append, String.length_append, length_strJoin]
  simp only [List.map_cons, List.map_nil, secB15_length]
  decide

theorem paginate_single_keep (header sec total : String) (hh : header ≠ "")
    (hle : ¬ 3900 < header.length + sec.length) :
    paginate header [sec] total = [header ++ sec ++ total] := by
  unfold paginate
  simp only [List.foldl_cons, List.foldl_nil]
  rw [show pagStep ([], header) sec = ([], header ++ sec) from by
    unfold pagStep; rw [if_neg hle]]
  rw [if_neg (append_ne_empty_left header sec hh)]
  rw [String.append_assoc]
  rfl

theorem paginate_single_flush (header sec total : String) (hsec : sec ≠ "")
    (hgt : 3900 < header.length + sec.length) :
    paginate header [sec] total = [header, sec ++ total] := by
  unfold paginate
  simp only [List.foldl_cons, List.foldl_nil]
  rw [show pagStep ([], header) sec = ([header], sec) from by
    unfold pagStep
    rw [if_pos hgt]
    rfl]
  rw [if_neg hsec]
  rfl

theorem renderReport_cexFifteen : renderReport cexFifteen "p" =
    [reportHeader "p" ++ sectionWithCap 10 ("a", cexFifteen)
      ++ totalLine (reportTotal cexFifteen)] := by
  have hstep : renderReport cexFifteen "p" =
      (if 4000 < (fullText cexFifteen "p").length then
        paginate (reportHeader "p") ((sortedCategories cexFifteen).map (sectionWithCap 10))
          (totalLine (reportTotal cexFifteen))
      else [fullText cexFifteen "p"]) := rfl
  rw [hstep, if_pos (by rw [fullA_length] ; omega), sorted_cexFifteen]
  simp only [List.map_cons, List.map_nil]
  apply paginate_single_keep _ _ _ (reportHeader_ne_empty "p")
  rw [secA10_length]
  rw [show (reportHeader "p").length = 17 from by decide]
  omega

theorem renderReport_cexTen : renderReport cexTen "p" =
    [reportHeader "p",
      sectionWithCap 10 ("a", cexTen) ++ totalLine (reportTotal cexTen)] := by
  have hstep : renderReport cexTen "p" =
      (if 4000 < (fullText cexTen "p").length then
        paginate (reportHeader "p") ((sortedCategories cexTen).map (sectionWithCap 10))
          (totalLine (reportTotal cexTen))
      else [fullText cexTen "p"]) := rfl
  rw [hstep, if_pos (by rw [fullB_length] ; omega), sorted_cexTen]
  simp only [List.map_cons, List.map_nil]
  apply paginate_single_flush _ _ _ (sectionWithCap_ne_empty 10 _)
  rw [secB10_length]
  rw [show (reportHeader "p").length = 17 from by decide]
  omega

/-- C5 counterexample: a record set whose single-block rendering exceeds
4000 characters, for which the paginated path still returns exactly one
block (no flush ever fires), refuting "more than one text block". -/
theorem render_single_block_cex :
    cexFifteen ≠ [] ∧ 4000 < (fullText cexFifteen "p").length ∧
      (renderReport cexFifteen "p").length = 1 :=
  ⟨by decide, by rw [fullA_length] ; omega, by rw [renderReport_cexFifteen] ; rfl⟩

/-- C5 (amended): when the single-block rendering exceeds the threshold the
renderer returns one or more blocks; their concatenation is exactly the
header, then every category section exactly once in order, then the grand
total, which is appended only to the final block. -/
theorem render_paginated_spec (expenses : List Exp) (p : String)
    (hne : expenses ≠ []) (hbig : 4000 < (fullText expenses p).length) :
    ∃ msgs c, renderReport expenses p = msgs ++ [c ++ totalLine (reportTotal expenses)] ∧
      strJoin msgs ++ c =
        reportHeader p ++ strJoin ((sortedCategories expenses).map (sectionWithCap 10)) := by
  obtain ⟨g0, gs, hj, hgs, heq⟩ := renderReport_decomp expenses p hne hbig
  obtain ⟨msgs, c, hA, hB⟩ := appendToLast_decomp (totalLine (reportTotal expenses))
    ((reportHeader p ++ strJoin g0) :: gs.map strJoin) (by simp)
  refine ⟨msgs, c, by rw [heq, hA], ?_⟩
  rw [hB]
  show reportHeader p ++ strJoin g0 ++ strJoin (gs.map strJoin) = _
  rw [String.append_assoc, strJoin_flatten, ← strJoin_append, hj]

/-- C5 witness: the amended pagination property applied at a concrete
paginated record set. -/
theorem render_paginated_spec_witness :
    ∃ msgs c, renderReport cexTen "p" =
        msgs ++ [c ++ totalLine (reportTotal cexTen)] ∧
      strJoin msgs ++ c =
        reportHeader "p" ++ strJoin ((sortedCategories cexTen).map (sectionWithCap 10)) :=
  render_paginated_spec cexTen "p" (by decide) (by rw [fullB_length] ; omega)

/-- C10: in the paginated path each block is a concatenation of whole
category sections (a section is never split across blocks), so a record
set with one oversized category section yields a block longer than the
3900-character threshold. -/
theorem category_sections_atomic :
    (∀ (expenses : List Exp) (p : String), expenses ≠ [] →
      4000 < (fullText expenses p).length →
      ∃ (g0 : List String) (gs : List (List String)),
        g0 ++ gs.flatten = (sortedCategories expenses).map (sectionWithCap 10) ∧
        (∀ g ∈ gs, g ≠ []) ∧
        renderReport expenses p =
          appendToLast (totalLine (reportTotal expenses))
            ((reportHeader p ++ strJoin g0) :: gs.map strJoin)) ∧
    3900 < (sectionWithCap 10 ("a", cexTen)).length ∧
    (∃ b ∈ renderReport cexTen "p", 3900 < b.length) := by
  refine ⟨fun expenses p hne hbig => renderReport_decomp expenses p hne hbig,
    by rw [secB10_length] ; omega,
    ⟨sectionWithCap 10 ("a", cexTen) ++ totalLine (reportTotal cexTen),
      by rw [renderReport_cexTen] ; simp, ?_⟩⟩
  rw [String.length_append, secB10_length,
    show (totalLine (reportTotal cexTen)).length = 15 from by decide]
  omega

theorem foldl_add_amount (es : List Exp) :
    ∀ a : Rat, es.foldl (fun t e => t + e.amount) a = a + (es.map Exp.amount).sum := by
  induction es with
  | nil =>
    intro a
    show a = a + 0
    rw [add_zero]
  | cons e es ih =>
    intro a
    show List.foldl _ (a + e.amount) es = a + (e.amount + (es.map Exp.amount).sum)
    rw [ih, add_assoc]

/-- C6: the grand total printed by the renderer is the arithmetic sum of
every record's amount, truncated display lines included: the total line of
the final block always carries the full sum. -/
theorem report_total_spec (expenses : List Exp) (p : String) (hne : expenses ≠ []) :
    reportTotal expenses = (expenses.map Exp.amount).sum ∧
    ∃ blocks0 s, renderReport expenses p =
      blocks0 ++ [s ++ totalLine ((expenses.map Exp.amount).sum)] := by
  have htot : reportTotal expenses = (expenses.map Exp.amount).sum := by
    unfold reportTotal
    rw [foldl_add_amount, zero_add]
  refine ⟨htot, ?_⟩
  by_cases hbig : 4000 < (fullText expenses p).length
  · obtain ⟨g0, gs, hj, hgs, heq⟩ := renderReport_decomp expenses p hne hbig
    obtain ⟨msgs, c, hA, -⟩ := appendToLast_decomp (totalLine (reportTotal expenses))
      ((reportHeader p ++ strJoin g0) :: gs.map strJoin) (by simp)
    refine ⟨msgs, c, ?_⟩
    rw [heq, hA, htot]
  · cases expenses with
    | nil => exact absurd rfl hne
    | cons e es =>
      have hr : renderReport (e :: es) p = [fullText (e :: es) p] := by
        simp only [renderReport]
        rw [if_neg hbig]
      refine ⟨[],
        reportHeader p ++ strJoin ((sortedCategories (e :: es)).map (sectionWithCap 15)), ?_⟩
      rw [hr, ← htot]
      rfl

/-- C6 witness: the sum property at a concrete one-record report. -/
theorem report_total_spec_witness :
    reportTotal [⟨5, "a", "d", "01-01"⟩] =
      (([⟨5, "a", "d", "01-01"⟩] : List Exp).map Exp.amount).sum ∧
    ∃ blocks0 s, renderReport [⟨5, "a", "d", "01-01"⟩] "p" =
      blocks0 ++ [s ++ totalLine ((([⟨5, "a", "d", "01-01"⟩] : List Exp).map Exp.amount).sum)] :=
  report_total_spec [⟨5, "a", "d", "01-01"⟩] "p" (by decide)


/-! ## Lemmas: the stable descending sort -/

theorem insertDescBy_perm {α : Type} (key : α → Rat) (x : α) (l : List α) :
    (insertDescBy key x l).Perm (x :: l) := by
  induction l with
  | nil => exact List.Perm.refl _
  | cons h t ih =>
    unfold insertDescBy
    by_cases hc : key x < key h
    · rw [if_pos hc]
      exact (List.Perm.cons h ih).trans (List.Perm.swap x h t)
    · rw [if_neg hc]

theorem sortDescBy_perm {α : Type} (key : α → Rat) (l : List α) :
    (sortDescBy key l).Perm l := by
  induction l with
  | nil => exact List.Perm.refl _
  | cons x xs ih =>
    show (insertDescBy key x (sortDescBy key xs)).Perm (x :: xs)
    exact (insertDescBy_perm key x _).trans (List.Perm.cons x ih)

theorem pairwise_insertDescBy {α : Type} (key : α → Rat) (x : α) (l : List α)
    (h : l.Pairwise (fun a b => key b ≤ key a)) :
    (insertDescBy key x l).Pairwise (fun a b => key b ≤ key a) := by
  induction l with
  | nil => simp [insertDescBy]
  | cons hd t ih =>
    rw [List.pairwise_cons] at h
    obtain ⟨hhd, ht⟩ := h
    unfold insertDescBy
    by_cases hc : key x < key hd
    · rw [if_pos hc]
      rw [List.pairwise_cons]
      refine ⟨?_, ih ht⟩
      intro y hy
      have hy2 := (insertDescBy_perm key x t).mem_iff.mp hy
      rcases List.mem_cons.mp hy2 with he | hm
      · subst he
        exact le_of_lt hc
      · exact hhd y hm
    · rw [if_neg hc]
      rw [List.pairwise_cons]
      refine ⟨?_, List.pairwise_cons.mpr ⟨hhd, ht⟩⟩
      intro y hy
      rcases List.mem_cons.mp hy with he | hm
      · subst he
        exact le_of_not_lt hc
      · exact le_trans (hhd y hm) (le_of_not_lt hc)

theorem pairwise_sortDescBy {α : Type} (key : α → Rat) (l : List α) :
    (sortDescBy key l).Pairwise (fun a b => key b ≤ key a) := by
  induction l with
  | nil => exact List.Pairwise.nil
  | cons x xs ih => exact pairwise_insertDescBy key x _ ih

theorem filter_insertDescBy {α : Type} (key : α → Rat) (x : α) (l : List α) (s : Rat) :
    (insertDescBy key x l).filter (fun a => decide (key a = s)) =
      if key x = s then x :: l.filter (fun a => decide (key a = s))
      else l.filter (fun a => decide (key a = s)) := by
  induction l with
  | nil =>
    by_cases hx : key x = s <;> simp [insertDescBy, List.filter_cons, hx]
  | cons hd t ih =>
    unfold insertDescBy
    by_cases hc : key x < key hd
    · rw [if_pos hc]
      by_cases hx : key x = s
      · have hhd : ¬ (key hd = s) := by
          intro he
          rw [← he] at hx
          rw [hx] at hc
          exact lt_irrefl _ hc
        simp [List.filter_cons, hhd, ih, hx]
      · simp [List.filter_cons, ih, hx]
    · rw [if_neg hc]
      by_cases hx : key x = s <;> simp [List.filter_cons, hx]

theorem filter_sortDescBy {α : Type} (key : α → Rat) (l : List α) (s : Rat) :
    (sortDescBy key l).filter (fun a => decide (key a = s)) =
      l.filter (fun a => decide (key a = s)) := by
  induction l with
  | nil => rfl
  | cons x xs ih =>
    show (insertDescBy key x (sortDescBy key xs)).filter _ = _
    rw [filter_insertDescBy, ih]
    by_cases hx : key x = s <;> simp [List.filter_cons, hx]

/-- C7: category sections are rendered in descending order of per-category
sum; two categories with equal sums keep the order in which they were first
encountered in the record sequence (the grouping order of
`categoriesData`), expressed by the filtered-subsequence stability
characterisation of the sort. -/
theorem report_category_order (expenses : List Exp) (p : String) :
    (sortedCategories expenses).Pairwise (fun a b => catSum b ≤ catSum a) ∧
    (sortedCategories expenses).Perm (categoriesData expenses) ∧
    (∀ s : Rat, (sortedCategories expenses).filter (fun g => decide (catSum g = s)) =
      (categoriesData expenses).filter (fun g => decide (catSum g = s))) ∧
    fullText expenses p =
      reportHeader p ++ strJoin ((sortedCategories expenses).map (sectionWithCap 15))
        ++ totalLine (reportTotal expenses) :=
  ⟨pairwise_sortDescBy catSum _, sortDescBy_perm catSum _,
   fun s => filter_sortDescBy catSum _ s, rfl⟩


/-! ## Lemmas: the 30-day per-category totals -/

/-- Find a category's entry in a stats list. -/
def statLookup (c : String) : List (String × Rat) → Option Rat
  | [] => none
  | (k, v) :: rest => if c = k then some v else statLookup c rest

/-- The window total of category `c`. -/
def sumCat (c : String) (es : List Exp) : Rat :=
  ((es.filter (fun e => decide (e.category = c))).map Exp.amount).sum

theorem statLookup_addStat (st : List (String × Rat)) (e : Exp) (c : String) :
    statLookup c (addStat st e) =
      if c = e.category then some ((statLookup c st).getD 0 + e.amount)
      else statLookup c st := by
  induction st with
  | nil =>
    by_cases hc : c = e.category <;> simp [addStat, statLookup, hc]
  | cons kv rest ih =>
    obtain ⟨k, v⟩ := kv
    unfold addStat
    by_cases hk : k = e.category
    · rw [if_pos hk]
      by_cases hc : c = k
      · subst hc
        simp [statLookup, hk]
      · have hce : ¬ (c = e.category) := by
          rw [← hk]
          exact hc
        simp [statLookup, hc, hce]
    · rw [if_neg hk]
      by_cases hc : c = k
      · have hce : ¬ (c = e.category) := by
          rw [hc]
          exact hk
        rw [if_neg hce]
        show statLookup c ((k, v) :: addStat rest e) = statLookup c ((k, v) :: rest)
        simp only [statLookup]
        rw [if_pos hc, if_pos hc]
      · rw [show statLookup c ((k, v) :: addStat rest e) =
            statLookup c (addStat rest e) from by
          simp only [statLookup]
          rw [if_neg hc]]
        rw [show statLookup c ((k, v) :: rest) = statLookup c rest from by
          simp only [statLookup]
          rw [if_neg hc]]
        exact ih

theorem statLookup_foldl (es : List Exp) :
    ∀ (st : List (String × Rat)) (c : String),
      statLookup c (es.foldl addStat st) =
        if (∃ e ∈ es, e.category = c) ∨ (statLookup c st).isSome = true
        then some ((statLookup c st).getD 0 + sumCat c es) else none := by
  induction es with
  | nil =>
    intro st c
    by_cases hs : (statLookup c st).isSome = true
    · rw [if_pos (Or.inr hs)]
      obtain ⟨v, hv⟩ := Option.isSome_iff_exists.mp hs
      show statLookup c st = some ((statLookup c st).getD 0 + sumCat c [])
      rw [hv]
      show some v = some (v + sumCat c [])
      rw [show sumCat c [] = 0 from rfl, add_zero]
    · rw [if_neg (by simp [hs])]
      show statLookup c st = none
      exact Option.not_isSome_iff_eq_none.mp hs
  | cons e es ih =>
    intro st c
    show statLookup c (es.foldl addStat (addStat st e)) = _
    rw [ih (addStat st e) c, statLookup_addStat st e c]
    by_cases hc : c = e.category
    · rw [if_pos hc]
      have h1 : (∃ e2 ∈ e :: es, e2.category = c) ∨ (statLookup c st).isSome = true :=
        Or.inl ⟨e, List.mem_cons_self _ _, hc.symm⟩
      rw [if_pos h1]
      have h2 : (∃ e2 ∈ es, e2.category = c) ∨
          (some ((statLookup c st).getD 0 + e.amount)).isSome = true := Or.inr rfl
      rw [if_pos h2]
      have hsum : sumCat c (e :: es) = e.amount + sumCat c es := by
        unfold sumCat
        rw [List.filter_cons, if_pos (by simp [hc.symm])]
        rw [List.map_cons, List.sum_cons]
      rw [hsum]
      show some ((statLookup c st).getD 0 + e.amount + sumCat c es) = _
      rw [add_assoc]
    · rw [if_neg hc]
      have hsum : sumCat c (e :: es) = sumCat c es := by
        unfold sumCat
        rw [List.filter_cons, if_neg (by simp ; intro he ; exact hc he.symm)]
      have hcond : ((∃ e2 ∈ es, e2.category = c) ∨ (statLookup c st).isSome = true) ↔
          ((∃ e2 ∈ e :: es, e2.category = c) ∨ (statLookup c st).isSome = true) := by
        constructor
        · rintro (⟨e2, hm, he⟩ | hx)
          · exact Or.inl ⟨e2, List.mem_cons_of_mem _ hm, he⟩
          · exact Or.inr hx
        · rintro (⟨e2, hm, he⟩ | hx)
          · rcases List.mem_cons.mp hm with h0 | hm2
            · subst h0
              exact absurd he.symm hc
            · exact Or.inl ⟨e2, hm2, he⟩
          · exact Or.inr hx
      rw [hsum]
      by_cases h2 : (∃ e2 ∈ es, e2.category = c) ∨ (statLookup c st).isSome = true
      · rw [if_pos h2, if_pos (hcond.mp h2)]
      · rw [if_neg h2, if_neg (fun hx => h2 (hcond.mpr hx))]

theorem statKeys_addStat (st : List (String × Rat)) (e : Exp) :
    (addStat st e).map Prod.fst =
      if e.category ∈ st.map Prod.fst then st.map Prod.fst
      else st.map Prod.fst ++ [e.category] := by
  induction st with
  | nil => simp [addStat]
  | cons kv rest ih =>
    obtain ⟨k, v⟩ := kv
    unfold addStat
    by_cases hk : k = e.category
    · rw [if_pos hk]
      have hm : e.category ∈ ((k, v) :: rest).map Prod.fst := by
        simp [hk.symm]
      rw [if_pos hm]
      simp
    · rw [if_neg hk]
      simp only [List.map_cons]
      rw [ih]
      have hiff : e.category ∈ k :: rest.map Prod.fst ↔ e.category ∈ rest.map Prod.fst := by
        simp only [List.mem_cons]
        constructor
        · rintro (he | hm)
          · exact absurd he.symm hk
          · exact hm
        · exact Or.inr
      by_cases hm : e.category ∈ rest.map Prod.fst
      · rw [if_pos hm, if_pos (hiff.mpr hm)]
      · rw [if_neg hm, if_neg (fun hx => hm (hiff.mp hx))]
        rfl

theorem statKeys_nodup (es : List Exp) :
    ∀ st : List (String × Rat), (st.map Prod.fst).Nodup →
      ((es.foldl addStat st).map Prod.fst).Nodup := by
  induction es with
  | nil => intro st h ; exact h
  | cons e es ih =>
    intro st h
    apply ih
    rw [statKeys_addStat]
    by_cases hm : e.category ∈ st.map Prod.fst
    · rw [if_pos hm]
      exact h
    · rw [if_neg hm]
      simp [List.nodup_append, h, hm]

theorem mem_statKeys_iff (st : List (String × Rat)) (c : String) :
    c ∈ st.map Prod.fst ↔ (statLookup c st).isSome = true := by
  induction st with
  | nil => simp [statLookup]
  | cons kv rest ih =>
    obtain ⟨k, v⟩ := kv
    by_cases hc : c = k
    · simp [statLookup, hc]
    · simp [statLookup, hc, ih]

theorem statLookup_of_mem (st : List (String × Rat)) (pr : String × Rat)
    (hnd : (st.map Prod.fst).Nodup) (hm : pr ∈ st) :
    statLookup pr.1 st = some pr.2 := by
  induction st with
  | nil => cases hm
  | cons kv rest ih =>
    rw [List.map_cons, List.nodup_cons] at hnd
    obtain ⟨hk, hrest⟩ := hnd
    rcases List.mem_cons.mp hm with he | hm2
    · subst he
      simp [statLookup]
    · have hne : pr.1 ≠ kv.1 := by
        intro he
        apply hk
        rw [← he]
        exact List.mem_map.mpr ⟨pr, hm2, rfl⟩
      obtain ⟨k, v⟩ := kv
      simp only [statLookup]
      rw [if_neg hne]
      exact ih hrest hm2

theorem categoryStats_keys_nodup (es : List Exp) :
    ((categoryStats es).map Prod.fst).Nodup :=
  statKeys_nodup es [] (by simp)

theorem mem_categoryStats_keys (es : List Exp) (c : String) :
    c ∈ (categoryStats es).map Prod.fst ↔ ∃ e ∈ es, e.category = c := by
  rw [mem_statKeys_iff,
    show categoryStats es = es.foldl addStat [] from rfl, statLookup_foldl]
  by_cases hex : ∃ e ∈ es, e.category = c
  · simp [hex]
  · simp [hex, statLookup]

theorem categoryStats_val (es : List Exp) (pr : String × Rat)
    (hm : pr ∈ categoryStats es) : pr.2 = sumCat pr.1 es := by
  have hl := statLookup_of_mem _ pr (categoryStats_keys_nodup es) hm
  rw [show categoryStats es = es.foldl addStat [] from rfl, statLookup_foldl] at hl
  split at hl
  · have := Option.some.inj hl
    rw [← this]
    show (statLookup pr.1 []).getD 0 + sumCat pr.1 es = sumCat pr.1 es
    rw [show statLookup pr.1 [] = none from rfl]
    show (0 : Rat) + sumCat pr.1 es = sumCat pr.1 es
    rw [zero_add]
  · cases hl


/-- C8: under the store's guarantees (the all-time category list has no
duplicates and covers every 30-day record's category), the categories
listing contains each all-time category exactly once: first the 30-day
categories sorted by descending window total (each total being the sum of
that category's window amounts), then the remaining categories with a zero
total. -/
theorem categories_listing_spec (categories : List String) (expenses : List Exp)
    (hnd : categories.Nodup)
    (hsub : ∀ e ∈ expenses, e.category ∈ categories) :
    (∀ c, ((catListing categories expenses).map Prod.fst).count c =
      if c ∈ categories then 1 else 0) ∧
    catListing categories expenses =
      sortDescBy Prod.snd (categoryStats expenses)
        ++ (categories.filter
            (fun c => decide (c ∉ (categoryStats expenses).map Prod.fst))).map
            (fun c => (c, 0)) ∧
    (sortDescBy Prod.snd (categoryStats expenses)).Pairwise (fun a b => b.2 ≤ a.2) ∧
    (∀ pr ∈ sortDescBy Prod.snd (categoryStats expenses), pr.2 = sumCat pr.1 expenses) ∧
    (∀ c, c ∈ (categoryStats expenses).map Prod.fst ↔ ∃ e ∈ expenses, e.category = c) := by
  refine ⟨?_, rfl, pairwise_sortDescBy Prod.snd _, ?_, fun c => mem_categoryStats_keys _ c⟩
  · intro c
    rw [show catListing categories expenses =
        sortDescBy Prod.snd (categoryStats expenses)
          ++ (categories.filter
              (fun c => decide (c ∉ (categoryStats expenses).map Prod.fst))).map
              (fun c => (c, 0)) from rfl]
    rw [List.map_append, List.count_append]
    have hperm : ((sortDescBy Prod.snd (categoryStats expenses)).map Prod.fst).Perm
        ((categoryStats expenses).map Prod.fst) :=
      (sortDescBy_perm Prod.snd _).map Prod.fst
    rw [hperm.count_eq]
    have hzmap : ((categories.filter
        (fun c => decide (c ∉ (categoryStats expenses).map Prod.fst))).map
        (fun c => (c, (0 : Rat)))).map Prod.fst =
        categories.filter (fun c => decide (c ∉ (categoryStats expenses).map Prod.fst)) := by
      rw [List.map_map]
      exact List.map_id' _
    rw [hzmap]
    have hknd := categoryStats_keys_nodup expenses
    have hfnd : (categories.filter
        (fun c => decide (c ∉ (categoryStats expenses).map Prod.fst))).Nodup :=
      hnd.filter _
    by_cases hc : c ∈ categories
    · by_cases hck : c ∈ (categoryStats expenses).map Prod.fst
      · rw [List.count_eq_one_of_mem hknd hck]
        rw [List.count_eq_zero_of_not_mem (by
          intro hmem
          have h2 : decide (c ∉ (categoryStats expenses).map Prod.fst) = true :=
            (List.mem_filter.mp hmem).2
          exact (of_decide_eq_true h2) hck)]
        rw [if_pos hc]
      · rw [List.count_eq_zero_of_not_mem hck]
        rw [List.count_eq_one_of_mem hfnd (List.mem_filter.mpr ⟨hc, decide_eq_true hck⟩)]
        rw [if_pos hc]
    · have hck : ¬ c ∈ (categoryStats expenses).map Prod.fst := by
        intro hmem
        obtain ⟨e, he, hec⟩ := (mem_categoryStats_keys expenses c).mp hmem
        apply hc
        rw [← hec]
        exact hsub e he
      rw [List.count_eq_zero_of_not_mem hck]
      rw [List.count_eq_zero_of_not_mem (by
        intro hmem
        exact hc (List.mem_filter.mp hmem).1)]
      rw [if_neg hc]
  · intro pr hpr
    have hmem : pr ∈ categoryStats expenses :=
      ((sortDescBy_perm Prod.snd _).mem_iff).mp hpr
    exact categoryStats_val expenses pr hmem

/-- C8 witness: the listing property at a concrete store state with one
30-day record and one dormant category. -/
theorem categories_listing_spec_witness :
    (∀ c, ((catListing ["еда", "такси"] [⟨5, "еда", "кфс", "01-02"⟩]).map Prod.fst).count c =
      if c ∈ ["еда", "такси"] then 1 else 0) ∧
    catListing ["еда", "такси"] [⟨5, "еда", "кфс", "01-02"⟩] =
      sortDescBy Prod.snd (categoryStats [⟨5, "еда", "кфс", "01-02"⟩])
        ++ ((["еда", "такси"] : List String).filter
            (fun c => decide (c ∉ (categoryStats [⟨5, "еда", "кфс", "01-02"⟩]).map Prod.fst))).map
            (fun c => (c, 0)) ∧
    (sortDescBy Prod.snd (categoryStats [⟨5, "еда", "кфс", "01-02"⟩])).Pairwise
      (fun a b => b.2 ≤ a.2) ∧
    (∀ pr ∈ sortDescBy Prod.snd (categoryStats [⟨5, "еда", "кфс", "01-02"⟩]),
      pr.2 = sumCat pr.1 [⟨5, "еда", "кфс", "01-02"⟩]) ∧
    (∀ c, c ∈ (categoryStats [⟨5, "еда", "кфс", "01-02"⟩]).map Prod.fst ↔
      ∃ e ∈ ([⟨5, "еда", "кфс", "01-02"⟩] : List Exp), e.category = c) :=
  categories_listing_spec ["еда", "такси"] [⟨5, "еда", "кфс", "01-02"⟩]
    (by decide) (by decide)

end ExpenseBot
